import Mathlib

/-!
Verification of the parameter synchronizer in
`src/fusion-addin/FusionParamsAddIn.py`.

The add-in translates between a JSON parameter file and the host document's
user-parameter collection.  The embedding below models the Python values the
relevant code paths can see (`None`, strings, integer JSON numbers), the
document's parameter collection as an ordered list, and the two operations
`apply_params_from_json` (import) and `export_params_to_json` (export)
together with their command handlers.
-/

/-- Python values appearing in the relevant JSON fields: `None` (missing key
or JSON `null`), strings, and (integer) JSON numbers. -/
inductive PyVal where
  | none
  | pstr (s : String)
  | num (n : Int)
deriving DecidableEq

/-- Python `str(val)` for the values above. -/
def PyVal.pyStr : PyVal → String
  | PyVal.none => "None"
  | PyVal.pstr s => s
  | PyVal.num n => toString n

/-- `make_value_string(val, unit)` from FusionParamsAddIn.py: a truthy
(non-empty) unit yields `f"{val} {unit}"`, otherwise `str(val)`.  The
`except` branch of the source is unreachable for these value types. -/
def make_value_string (val : PyVal) (unit : String) : String :=
  if unit = "" then val.pyStr else val.pyStr ++ " " ++ unit

/-- A Fusion user parameter as the add-in reads and writes it: the fields
touched by `upsert_user_param` and `export_params_to_json`. -/
structure DocParam where
  name : String
  expression : String
  unit : String
  comment : String
deriving DecidableEq

/-- Python `a or b` for strings (the empty string is falsy). -/
def strOr (a b : String) : String := if a = "" then b else a

/-- Python `c or d` where `c` is an optional string (`None` and `""` are
falsy). -/
def pyOrStr (c : Option String) (d : String) : String :=
  match c with
  | Option.none => d
  | some s => strOr s d

/-- The expression string `upsert_user_param` computes from `expr_or_val`:
a string is used verbatim (the `isinstance(expr_or_val, str)` branch),
anything else goes through `make_value_string`. -/
def resolve_expr (expr_or_val : PyVal) (default_unit : String) : String :=
  match expr_or_val with
  | PyVal.pstr s => s
  | v => make_value_string v default_unit

/-- `existing.comment = comment` guarded by `if comment is not None`. -/
def commentUpdate (c : Option String) (old : String) : String :=
  match c with
  | Option.none => old
  | some s => s

/-- The scan-and-mutate / add body of `upsert_user_param`: the linear scan
finds the first parameter with a matching name and overwrites its expression
(and comment when one is supplied) in place; with no match a new parameter is
appended via `userParams.add(name, vi, default_unit or '', comment or '')`. -/
def upsert_go (name expr default_unit : String) (comment : Option String) :
    List DocParam → List DocParam
  | [] => [⟨name, expr, strOr default_unit "", pyOrStr comment ""⟩]
  | p :: rest =>
    if p.name = name then
      ⟨p.name, expr, p.unit, commentUpdate comment p.comment⟩ :: rest
    else
      p :: upsert_go name expr default_unit comment rest

/-- `upsert_user_param(userParams, name, expr_or_val, default_unit, comment)`
from FusionParamsAddIn.py. -/
def upsert_user_param (userParams : List DocParam) (name : String)
    (expr_or_val : PyVal) (default_unit : String) (comment : Option String) :
    List DocParam :=
  upsert_go name (resolve_expr expr_or_val default_unit) default_unit comment
    userParams

/-- A JSON parameter record as `apply_params_from_json` reads it.
`expression = some v` means the key is present with value `v` (the code
tests `'expression' in p`); `value` is `PyVal.none` when the key is missing
(`p.get('value')`); `unit = Option.none` means the key is missing, so
`p.get('unit', default_unit)` falls back to the file default; `comment` is
`Option.none` when missing (`p.get('comment')`). -/
structure ParamRecord where
  name : String
  expression : Option PyVal
  value : PyVal
  unit : Option String
  comment : Option String
deriving DecidableEq

/-- A parameter JSON file (`design` is informational and ignored on
import). -/
structure ParamFile where
  design : String
  defaultUnit : String
  parameters : List ParamRecord
deriving DecidableEq

/-- One iteration of the record loop in `apply_params_from_json`: an
expression-form record is upserted with an empty unit string, a value-form
record with `p.get('unit', default_unit)`. -/
def applyRecord (default_unit : String) (ps : List DocParam)
    (r : ParamRecord) : List DocParam :=
  match r.expression with
  | some e => upsert_user_param ps r.name e "" r.comment
  | Option.none =>
      upsert_user_param ps r.name r.value (r.unit.getD default_unit) r.comment

/-- `apply_params_from_json`: fold the record loop over the document's
parameters; the reported applied count is `len(params)`. -/
def apply_params_from_json (f : ParamFile) (ps : List DocParam) :
    List DocParam × Nat :=
  (f.parameters.foldl (applyRecord f.defaultUnit) ps, f.parameters.length)

/-- The record `export_params_to_json` emits for one document parameter:
`name`, the current `expression` verbatim, and `comment or ""`; no `value`
or `unit` key is emitted. -/
def export_record (p : DocParam) : ParamRecord :=
  ⟨p.name, some (PyVal.pstr p.expression), PyVal.none, Option.none,
    some (strOr p.comment "")⟩

/-- `export_params_to_json`: build the output structure; `defaultUnit` is
always the empty string and records appear in document order.  The reported
count is `len(out["parameters"])`. -/
def export_params_to_json (design_name : String) (ps : List DocParam) :
    ParamFile × Nat :=
  (⟨design_name, "", ps.map export_record⟩, (ps.map export_record).length)

/-- The first document parameter carrying a given name: the parameter the
linear scan in `upsert_user_param` operates on. -/
def firstNamed (ps : List DocParam) (n : String) : Option DocParam :=
  ps.find? (fun p => p.name == n)

/-- The message boxes the add-in can show, one constructor per distinct
`_ui.messageBox` call site of the two operations. -/
inductive UiMsg where
  | noActiveDesign
  | appliedParams (count : Nat) (path : String)
  | applyFailed
  | exportedParams (count : Nat) (path : String)
  | exportFailed
deriving DecidableEq

/-- Result of a file dialog: `ok filename` for `DialogOK` with the chosen
`fileDlg.filename`, `cancelled` for every other result. -/
inductive DialogResult where
  | ok (filename : String)
  | cancelled
deriving DecidableEq

/-- `apply_params_from_json(path)` with its IO context made explicit:
`doc = Option.none` means no active design (the early return), a
`Option.none` file means the file at `path` could not be read or parsed
(the `except` branch fires before any mutation). -/
def apply_params_io (doc : Option (List DocParam)) (file : Option ParamFile)
    (path : String) : Option (List DocParam) × List UiMsg :=
  match doc with
  | Option.none => (Option.none, [UiMsg.noActiveDesign])
  | some ps =>
    match file with
    | Option.none => (some ps, [UiMsg.applyFailed])
    | some f =>
        (some (apply_params_from_json f ps).1,
          [UiMsg.appliedParams (apply_params_from_json f ps).2 path])

/-- JSON string escaping for quote and backslash, as `json.dump` performs
on the strings the add-in exports. -/
def jsonEscapeChar (c : Char) : String :=
  if c = '\\' then "\\\\" else if c = '"' then "\\\"" else String.singleton c

/-- A serialized JSON string literal. -/
def jsonString (s : String) : String :=
  "\"" ++ String.join (s.data.map jsonEscapeChar) ++ "\""

/-- Serialization of a scalar JSON value. -/
def serializePyVal : PyVal → String
  | PyVal.none => "null"
  | PyVal.pstr s => jsonString s
  | PyVal.num n => toString n

/-- Serialization of one export record: exactly the keys
`export_params_to_json` inserts, in insertion order; absent keys are not
emitted. -/
def serializeRecord (r : ParamRecord) : String :=
  "\x7b" ++ jsonString "name" ++ ": " ++ jsonString r.name
    ++ (match r.expression with
        | Option.none => ""
        | some e => ", " ++ jsonString "expression" ++ ": " ++ serializePyVal e)
    ++ (match r.comment with
        | Option.none => ""
        | some c => ", " ++ jsonString "comment" ++ ": " ++ jsonString c)
    ++ "\x7d"

/-- Serialization of the fully-built output structure `out` that
`export_params_to_json` hands to `json.dump` (whitespace differences from
`indent=2` aside). -/
def serializeFile (f : ParamFile) : String :=
  "\x7b" ++ jsonString "design" ++ ": " ++ jsonString f.design
    ++ ", " ++ jsonString "defaultUnit" ++ ": " ++ jsonString f.defaultUnit
    ++ ", " ++ jsonString "parameters" ++ ": ["
    ++ String.intercalate ", " (f.parameters.map serializeRecord)
    ++ "]\x7d"

/-- `export_params_to_json(path)` with its IO context explicit.  `old` is
the content at `path` before the call and `writable` says whether
`open(path, 'w')` succeeds (a failed open raises before anything is
written, landing in the `except` branch).  The output structure is fully
built before the single write of its serialization. -/
def export_params_io (doc : Option (List DocParam)) (design_name : String)
    (writable : Bool) (old path : String) : String × List UiMsg :=
  match doc with
  | Option.none => (old, [UiMsg.noActiveDesign])
  | some ps =>
    if writable then
      (serializeFile (export_params_to_json design_name ps).1,
        [UiMsg.exportedParams (export_params_to_json design_name ps).2 path])
    else
      (old, [UiMsg.exportFailed])

/-- `ImportParamsCommandExecuteHandler.notify`: a dialog result other than
`DialogOK` returns before any work; otherwise the chosen file is applied.
`fileAt` gives the (read-only) parse result of the file at each path. -/
def import_notify (res : DialogResult) (doc : Option (List DocParam))
    (fileAt : String → Option ParamFile) :
    Option (List DocParam) × List UiMsg :=
  match res with
  | DialogResult.cancelled => (doc, [])
  | DialogResult.ok path => apply_params_io doc (fileAt path) path

/-- `ExportParamsCommandExecuteHandler.notify`: a dialog result other than
`DialogOK` returns before any work; otherwise the export runs against the
chosen path. -/
def export_notify (res : DialogResult) (doc : Option (List DocParam))
    (design_name : String) (writable : Bool) (old : String) :
    String × List UiMsg :=
  match res with
  | DialogResult.cancelled => (old, [])
  | DialogResult.ok path => export_params_io doc design_name writable old path

/-! ### Basic lemmas about the upsert loop -/

@[simp]
theorem strOr_empty_right (s : String) : strOr s "" = s := by
  unfold strOr
  split
  · simp_all
  · rfl

theorem pyOrStr_some_empty (c : String) : pyOrStr (some c) "" = c := by
  simp [pyOrStr]

/-- With no name match in the collection, the upsert appends exactly one new
parameter built from the resolved expression. -/
theorem upsert_go_nomatch (name expr du : String) (c : Option String)
    (ps : List DocParam) (h : ∀ p ∈ ps, p.name ≠ name) :
    upsert_go name expr du c ps =
      ps ++ [⟨name, expr, strOr du "", pyOrStr c ""⟩] := by
  induction ps with
  | nil => rfl
  | cons p rest ih =>
    have hp : p.name ≠ name := h p (List.mem_cons_self p rest)
    simp only [upsert_go, if_neg hp, List.cons_append, List.cons.injEq,
      true_and]
    exact ih (fun q hq => h q (List.mem_cons_of_mem p hq))

/-- With a unique name match at index `i`, the upsert is exactly an in-place
update of that entry: expression overwritten, comment overwritten when the
record supplies one, unit and everything else untouched. -/
theorem upsert_go_set (name expr du : String) (c : Option String)
    (ps : List DocParam) (hnodup : (ps.map DocParam.name).Nodup)
    (i : Nat) (p : DocParam) (hi : ps[i]? = some p) (hname : p.name = name) :
    upsert_go name expr du c ps =
      ps.set i ⟨name, expr, p.unit, commentUpdate c p.comment⟩ := by
  induction ps generalizing i with
  | nil => simp at hi
  | cons q rest ih =>
    rcases i with _ | j
    · simp only [List.getElem?_cons_zero, Option.some.injEq] at hi
      subst hi
      simp [upsert_go, hname]
    · simp only [List.getElem?_cons_succ] at hi
      have hmem : p ∈ rest := List.getElem?_mem hi
      have hqname : q.name ≠ name := by
        intro hq
        have : q.name ∈ rest.map DocParam.name := by
          rw [hq, ← hname]
          exact List.mem_map_of_mem DocParam.name hmem
        exact (List.nodup_cons.mp (by simpa using hnodup)).1 this
      simp only [upsert_go, if_neg hqname, List.set_cons_succ,
        List.cons.injEq, true_and]
      exact ih (List.nodup_cons.mp (by simpa using hnodup)).2 j hi

/-- After an upsert, the first parameter carrying the upserted name holds the
resolved expression, and the supplied comment when there is one. -/
theorem firstNamed_upsert_go (name expr du : String) (c : Option String)
    (ps : List DocParam) :
    ∃ q, firstNamed (upsert_go name expr du c ps) name = some q ∧
      q.name = name ∧ q.expression = expr ∧
      ∀ c0, c = some c0 → q.comment = c0 := by
  induction ps with
  | nil =>
    refine ⟨⟨name, expr, strOr du "", pyOrStr c ""⟩, ?_, rfl, rfl, ?_⟩
    · simp [upsert_go, firstNamed]
    · rintro c0 rfl
      exact pyOrStr_some_empty c0
  | cons p rest ih =>
    by_cases hp : p.name = name
    · refine ⟨⟨p.name, expr, p.unit, commentUpdate c p.comment⟩, ?_, hp, rfl, ?_⟩
      · simp [upsert_go, if_pos hp, firstNamed, List.find?_cons_of_pos, hp]
      · rintro c0 rfl
        rfl
    · obtain ⟨q, hq, hq1, hq2, hq3⟩ := ih
      refine ⟨q, ?_, hq1, hq2, hq3⟩
      simpa [upsert_go, if_neg hp, firstNamed, List.find?_cons_of_neg,
        hp] using hq

/-- If the first parameter carrying the upserted name already holds the
resolved expression (and the supplied comment), the upsert is the
identity: re-applying the same record changes nothing. -/
theorem upsert_go_stable (name expr du : String) (c : Option String)
    (ps : List DocParam) (q : DocParam)
    (hfind : firstNamed ps name = some q)
    (hexpr : q.expression = expr)
    (hcomment : ∀ c0, c = some c0 → q.comment = c0) :
    upsert_go name expr du c ps = ps := by
  induction ps with
  | nil => simp [firstNamed] at hfind
  | cons p rest ih =>
    by_cases hp : p.name = name
    · have hq : q = p := by
        have : firstNamed (p :: rest) name = some p := by
          simp [firstNamed, List.find?_cons_of_pos, hp]
        rw [this] at hfind
        exact (Option.some.injEq _ _ ▸ hfind).symm
      subst hq
      have hentry :
          (⟨q.name, expr, q.unit, commentUpdate c q.comment⟩ : DocParam) = q := by
        cases c with
        | none =>
          rw [← hexpr]
          rfl
        | some c0 =>
          rw [← hexpr, ← hcomment c0 rfl]
          rfl
      simp only [upsert_go, if_pos hp, hentry]
    · have hfind' : firstNamed rest name = some q := by
        simpa [firstNamed, List.find?_cons_of_neg, hp] using hfind
      simp [upsert_go, if_neg hp, ih hfind']

/-- An upsert of one name leaves the first parameter of every other name
untouched. -/
theorem firstNamed_upsert_go_other (name expr du : String) (c : Option String)
    (ps : List DocParam) (n : String) (hn : n ≠ name) :
    firstNamed (upsert_go name expr du c ps) n = firstNamed ps n := by
  induction ps with
  | nil =>
    have hnn : ¬ (name = n) := fun h => hn h.symm
    simp [upsert_go, firstNamed, List.find?_cons_of_neg, hnn]
  | cons p rest ih =>
    simp only [firstNamed] at ih
    by_cases hp : p.name = name
    · have hpn : ¬ p.name = n := fun h => hn (h ▸ hp ▸ rfl)
      simp [upsert_go, if_pos hp, firstNamed, List.find?_cons_of_neg, hpn]
    · by_cases hpn : p.name = n
      · simp [upsert_go, if_neg hp, firstNamed, List.find?_cons_of_pos, hpn, hn]
      · simp [upsert_go, if_neg hp, firstNamed, List.find?_cons_of_neg, hpn, ih]

/-- The upsert never shrinks the collection. -/
theorem upsert_go_length_le (name expr du : String) (c : Option String)
    (ps : List DocParam) :
    ps.length ≤ (upsert_go name expr du c ps).length := by
  induction ps with
  | nil => simp [upsert_go]
  | cons p rest ih =>
    by_cases hp : p.name = name
    · simp [upsert_go, if_pos hp]
    · simpa [upsert_go, if_neg hp] using ih

/-- The upsert keeps every pre-existing slot: the entry at each index keeps
its name and unit, and is completely untouched when its name is not the
upserted one. -/
theorem upsert_go_getElem (name expr du : String) (c : Option String)
    (ps : List DocParam) (i : Nat) (p : DocParam) (hi : ps[i]? = some p) :
    ∃ q, (upsert_go name expr du c ps)[i]? = some q ∧
      q.name = p.name ∧ q.unit = p.unit ∧ (p.name ≠ name → q = p) := by
  induction ps generalizing i with
  | nil => simp at hi
  | cons r rest ih =>
    by_cases hr : r.name = name
    · rcases i with _ | j
      · simp only [List.getElem?_cons_zero, Option.some.injEq] at hi
        subst hi
        exact ⟨⟨r.name, expr, r.unit, commentUpdate c r.comment⟩,
          by simp [upsert_go, if_pos hr], rfl, rfl, fun h => absurd hr h⟩
      · simp only [List.getElem?_cons_succ] at hi
        exact ⟨p, by simp [upsert_go, if_pos hr, hi], rfl, rfl, fun _ => rfl⟩
    · rcases i with _ | j
      · simp only [List.getElem?_cons_zero, Option.some.injEq] at hi
        subst hi
        exact ⟨r, by simp [upsert_go, if_neg hr], rfl, rfl, fun _ => rfl⟩
      · simp only [List.getElem?_cons_succ] at hi
        obtain ⟨q, hq, h1, h2, h3⟩ := ih j hi
        exact ⟨q, by simp [upsert_go, if_neg hr, hq], h1, h2, h3⟩

/-! ### Lemmas lifting the upsert facts to the import record loop -/

/-- The value `upsert_user_param` receives as `expr_or_val` for a record. -/
def recVal (r : ParamRecord) : PyVal :=
  match r.expression with
  | some e => e
  | Option.none => r.value

/-- The unit string `upsert_user_param` receives as `default_unit` for a
record: `''` for the expression branch, `p.get('unit', default_unit)` for
the value branch. -/
def recUnit (default_unit : String) (r : ParamRecord) : String :=
  match r.expression with
  | some _ => ""
  | Option.none => r.unit.getD default_unit

/-- The resolved expression string of a record. -/
def recExpr (default_unit : String) (r : ParamRecord) : String :=
  resolve_expr (recVal r) (recUnit default_unit r)

/-- `applyRecord` is exactly one upsert with the record's data. -/
theorem applyRecord_eq_upsert (du : String) (ps : List DocParam)
    (r : ParamRecord) :
    applyRecord du ps r =
      upsert_user_param ps r.name (recVal r) (recUnit du r) r.comment := by
  cases h : r.expression with
  | none => simp [applyRecord, recVal, recUnit, h]
  | some e => simp [applyRecord, recVal, recUnit, h]

/-- `applyRecord` in terms of the upsert loop itself. -/
theorem applyRecord_eq_go (du : String) (ps : List DocParam)
    (r : ParamRecord) :
    applyRecord du ps r =
      upsert_go r.name (resolve_expr (recVal r) (recUnit du r)) (recUnit du r)
        r.comment ps := by
  rw [applyRecord_eq_upsert]
  rfl

/-- After one record is applied, the first parameter carrying its name
holds the record's resolved expression and supplied comment. -/
theorem firstNamed_applyRecord (du : String) (ps : List DocParam)
    (r : ParamRecord) :
    ∃ q, firstNamed (applyRecord du ps r) r.name = some q ∧
      q.name = r.name ∧ q.expression = recExpr du r ∧
      ∀ c0, r.comment = some c0 → q.comment = c0 := by
  rw [applyRecord_eq_upsert]
  exact firstNamed_upsert_go r.name (recExpr du r) (recUnit du r) r.comment ps

/-- Re-applying a record whose resolved expression and comment already agree
with the first parameter of its name changes nothing. -/
theorem applyRecord_stable (du : String) (ps : List DocParam)
    (r : ParamRecord) (q : DocParam)
    (hfind : firstNamed ps r.name = some q)
    (hexpr : q.expression = recExpr du r)
    (hcomment : ∀ c0, r.comment = some c0 → q.comment = c0) :
    applyRecord du ps r = ps := by
  rw [applyRecord_eq_upsert]
  exact upsert_go_stable r.name (recExpr du r) (recUnit du r) r.comment ps q
    hfind hexpr hcomment

/-- Applying a record does not disturb the first parameter of any other
name. -/
theorem firstNamed_applyRecord_other (du : String) (ps : List DocParam)
    (r : ParamRecord) (n : String) (hn : n ≠ r.name) :
    firstNamed (applyRecord du ps r) n = firstNamed ps n := by
  rw [applyRecord_eq_upsert]
  exact firstNamed_upsert_go_other r.name (recExpr du r) (recUnit du r)
    r.comment ps n hn

/-- A fold of records none of which carries name `n` does not disturb the
first parameter named `n`. -/
theorem firstNamed_foldl_other (du : String) (rs : List ParamRecord)
    (n : String) (hn : ∀ r ∈ rs, r.name ≠ n) (ps : List DocParam) :
    firstNamed (rs.foldl (applyRecord du) ps) n = firstNamed ps n := by
  induction rs generalizing ps with
  | nil => rfl
  | cons r rest ih =>
    have h1 : n ≠ r.name := fun h => hn r (List.mem_cons_self r rest) h.symm
    rw [List.foldl_cons, ih (fun s hs => hn s (List.mem_cons_of_mem r hs)),
      firstNamed_applyRecord_other du ps r n h1]

/-- Applying a list of records with pairwise-distinct names a second time
reproduces exactly the state after the first application. -/
theorem foldl_applyRecord_idem (du : String) (rs : List ParamRecord)
    (hnodup : (rs.map ParamRecord.name).Nodup) (ps : List DocParam) :
    rs.foldl (applyRecord du) (rs.foldl (applyRecord du) ps) =
      rs.foldl (applyRecord du) ps := by
  induction rs generalizing ps with
  | nil => rfl
  | cons r rest ih =>
    simp only [List.map_cons, List.nodup_cons] at hnodup
    have hns : ∀ s ∈ rest, s.name ≠ r.name := by
      intro s hs h
      exact hnodup.1 (h ▸ List.mem_map_of_mem ParamRecord.name hs)
    simp only [List.foldl_cons]
    obtain ⟨q, hq, hq1, hq2, hq3⟩ := firstNamed_applyRecord du ps r
    have hframe :
        firstNamed (rest.foldl (applyRecord du) (applyRecord du ps r)) r.name
          = some q := by
      rw [firstNamed_foldl_other du rest r.name hns (applyRecord du ps r), hq]
    have hstable :
        applyRecord du (rest.foldl (applyRecord du) (applyRecord du ps r)) r
          = rest.foldl (applyRecord du) (applyRecord du ps r) :=
      applyRecord_stable du _ r q hframe hq2 hq3
    rw [hstable]
    exact ih hnodup.2 (applyRecord du ps r)

/-- The record loop never shrinks the document's parameter collection. -/
theorem foldl_applyRecord_length_le (du : String) (rs : List ParamRecord)
    (ps : List DocParam) :
    ps.length ≤ (rs.foldl (applyRecord du) ps).length := by
  induction rs generalizing ps with
  | nil => exact le_rfl
  | cons r rest ih =>
    refine le_trans ?_ (ih (applyRecord du ps r))
    rw [applyRecord_eq_upsert]
    exact upsert_go_length_le r.name (resolve_expr (recVal r) (recUnit du r))
      (recUnit du r) r.comment ps

/-- The record loop keeps every pre-existing slot: the entry at each index
keeps its name, and is completely untouched when no record carries its
name. -/
theorem foldl_applyRecord_getElem (du : String) (rs : List ParamRecord)
    (ps : List DocParam) (i : Nat) (p : DocParam) (hi : ps[i]? = some p) :
    ∃ q, (rs.foldl (applyRecord du) ps)[i]? = some q ∧ q.name = p.name ∧
      ((∀ r ∈ rs, r.name ≠ p.name) → q = p) := by
  induction rs generalizing ps p with
  | nil => exact ⟨p, hi, rfl, fun _ => rfl⟩
  | cons r rest ih =>
    have hstep := upsert_go_getElem r.name
      (resolve_expr (recVal r) (recUnit du r)) (recUnit du r) r.comment ps i p hi
    rw [← applyRecord_eq_go] at hstep
    obtain ⟨q1, hq1, hname1, _, huntouched1⟩ := hstep
    obtain ⟨q, hq, hname, huntouched⟩ := ih (applyRecord du ps r) q1 hq1
    refine ⟨q, by simpa using hq, hname.trans hname1, ?_⟩
    intro hnone
    have hq1p : q1 = p :=
      huntouched1 (fun h => absurd h.symm (hnone r (List.mem_cons_self r rest)))
    subst hq1p
    exact huntouched fun s hs =>
      hname1 ▸ hnone s (List.mem_cons_of_mem r hs)

/-- Importing the export of parameters with pairwise-distinct names into a
document containing none of those names appends exactly one fresh parameter
per original, carrying the original expression and comment and an empty
unit string. -/
theorem foldl_import_of_export (du : String) (ps qs : List DocParam)
    (hnodup : (ps.map DocParam.name).Nodup)
    (hdisj : ∀ p ∈ ps, ∀ q ∈ qs, p.name ≠ q.name) :
    (ps.map export_record).foldl (applyRecord du) qs =
      qs ++ ps.map (fun p => ⟨p.name, p.expression, "", p.comment⟩) := by
  induction ps generalizing qs with
  | nil => simp
  | cons p rest ih =>
    simp only [List.map_cons, List.nodup_cons] at hnodup
    have hstep : applyRecord du qs (export_record p) =
        qs ++ [⟨p.name, p.expression, "", p.comment⟩] := by
      rw [applyRecord_eq_upsert]
      show upsert_go p.name
        (resolve_expr (recVal (export_record p)) (recUnit du (export_record p)))
        (recUnit du (export_record p)) (some (strOr p.comment "")) qs = _
      have hnomatch : ∀ q ∈ qs, q.name ≠ p.name := by
        intro q hq h
        exact hdisj p (List.mem_cons_self p rest) q hq h.symm
      rw [upsert_go_nomatch _ _ _ _ qs hnomatch]
      simp [recVal, recUnit, export_record, resolve_expr, pyOrStr]
    rw [List.map_cons, List.foldl_cons, hstep]
    have hdisj' : ∀ s ∈ rest,
        ∀ q ∈ qs ++ [(⟨p.name, p.expression, "", p.comment⟩ : DocParam)],
        s.name ≠ q.name := by
      intro s hs q hq
      rcases List.mem_append.mp hq with hq | hq
      · exact hdisj s (List.mem_cons_of_mem p hs) q hq
      · have hq' : q = ⟨p.name, p.expression, "", p.comment⟩ := by simpa using hq
        subst hq'
        intro h
        exact hnodup.1 (h ▸ List.mem_map_of_mem DocParam.name hs)
    rw [ih (qs ++ [(⟨p.name, p.expression, "", p.comment⟩ : DocParam)]) hnodup.2 hdisj']
    simp

/-! ### Claim theorems -/

/-- C1: for every imported parameter record, the resolved expression string
is computed as follows: a record with an `expression` field has it used
verbatim; otherwise the record's `value` is formatted with the record's
`unit`, or with the file-level `defaultUnit` when the record has no unit,
yielding `"<value> <unit>"` when the chosen unit is non-empty and
`"<value>"` when no unit is available anywhere.  Stated on the document
parameter the import produces for the record. -/
theorem c1_resolved_expression (du : String) (r : ParamRecord)
    (ps : List DocParam) :
    (∀ s, r.expression = some (PyVal.pstr s) →
      ∃ q, firstNamed (applyRecord du ps r) r.name = some q ∧
        q.expression = s) ∧
    (r.expression = Option.none → ∀ n : Int, r.value = PyVal.num n →
      (r.unit.getD du ≠ "" →
        ∃ q, firstNamed (applyRecord du ps r) r.name = some q ∧
          q.expression = toString n ++ " " ++ r.unit.getD du) ∧
      (r.unit.getD du = "" →
        ∃ q, firstNamed (applyRecord du ps r) r.name = some q ∧
          q.expression = toString n)) := by
  obtain ⟨q, hq, hq1, hq2, hq3⟩ := firstNamed_applyRecord du ps r
  refine ⟨?_, ?_⟩
  · intro s hs
    refine ⟨q, hq, ?_⟩
    rw [hq2]
    simp [recExpr, recVal, recUnit, hs, resolve_expr]
  · intro hnone n hval
    constructor
    · intro hu
      refine ⟨q, hq, ?_⟩
      rw [hq2]
      simp [recExpr, recVal, recUnit, hnone, hval, resolve_expr,
        make_value_string, PyVal.pyStr, if_neg hu]
    · intro hu
      refine ⟨q, hq, ?_⟩
      rw [hq2]
      simp [recExpr, recVal, recUnit, hnone, hval, resolve_expr,
        make_value_string, PyVal.pyStr, hu]

/-- Witness for C1 at the three worked examples of the specification. -/
theorem c1_resolved_expression_witness :
    (∃ q, firstNamed (applyRecord ""
        [] ⟨"W", Option.none, PyVal.num 25, some "mm", Option.none⟩) "W" =
        some q ∧ q.expression = "25 mm") ∧
    (∃ q, firstNamed (applyRecord "in"
        [] ⟨"W", Option.none, PyVal.num 25, Option.none, Option.none⟩) "W" =
        some q ∧ q.expression = "25 in") ∧
    (∃ q, firstNamed (applyRecord ""
        [] ⟨"W", Option.none, PyVal.num 25, Option.none, Option.none⟩) "W" =
        some q ∧ q.expression = "25") := by
  refine ⟨?_, ?_, ?_⟩
  · obtain ⟨q, h1, h2⟩ :=
      ((c1_resolved_expression "" ⟨"W", Option.none, PyVal.num 25, some "mm",
        Option.none⟩ []).2 rfl 25 rfl).1 (by decide)
    exact ⟨q, h1, h2.trans (by decide)⟩
  · obtain ⟨q, h1, h2⟩ :=
      ((c1_resolved_expression "in" ⟨"W", Option.none, PyVal.num 25,
        Option.none, Option.none⟩ []).2 rfl 25 rfl).1 (by decide)
    exact ⟨q, h1, h2.trans (by decide)⟩
  · obtain ⟨q, h1, h2⟩ :=
      ((c1_resolved_expression "" ⟨"W", Option.none, PyVal.num 25,
        Option.none, Option.none⟩ []).2 rfl 25 rfl).2 (by decide)
    exact ⟨q, h1, h2.trans (by decide)⟩

/-- C2: the per-record upsert is correct.  Over a document whose parameter
names are unique, a record whose name matches an existing parameter
overwrites that parameter's expression in place (and its comment, when the
record supplies one) — an in-place `List.set`, so no duplicate is created
and the count is unchanged — while a record whose name matches nothing
appends exactly one new parameter carrying the resolved expression. -/
theorem c2_upsert_correct (ps : List DocParam) (name : String) (v : PyVal)
    (du : String) (c : Option String)
    (hnodup : (ps.map DocParam.name).Nodup) :
    (∀ i p, ps[i]? = some p → p.name = name →
      upsert_user_param ps name v du c =
        ps.set i ⟨name, resolve_expr v du, p.unit, commentUpdate c p.comment⟩) ∧
    ((∀ p ∈ ps, p.name ≠ name) →
      upsert_user_param ps name v du c =
        ps ++ [⟨name, resolve_expr v du, strOr du "", pyOrStr c ""⟩]) := by
  constructor
  · intro i p hi hname
    exact upsert_go_set name (resolve_expr v du) du c ps hnodup i p hi hname
  · intro h
    exact upsert_go_nomatch name (resolve_expr v du) du c ps h

/-- Witness for C2: an update in place on a match, an append on a miss. -/
theorem c2_upsert_correct_witness :
    upsert_user_param [(⟨"W", "1 mm", "mm", "old"⟩ : DocParam)] "W"
        (PyVal.pstr "2 mm") "" (some "new") =
      [⟨"W", "2 mm", "mm", "new"⟩] ∧
    upsert_user_param [(⟨"W", "1 mm", "mm", "old"⟩ : DocParam)] "H"
        (PyVal.num 3) "cm" Option.none =
      [⟨"W", "1 mm", "mm", "old"⟩, ⟨"H", "3 cm", "cm", ""⟩] := by
  constructor
  · have h := (c2_upsert_correct [⟨"W", "1 mm", "mm", "old"⟩] "W"
      (PyVal.pstr "2 mm") "" (some "new") (by decide)).1 0
      ⟨"W", "1 mm", "mm", "old"⟩ rfl rfl
    exact h.trans (by decide)
  · have h := (c2_upsert_correct [⟨"W", "1 mm", "mm", "old"⟩] "H"
      (PyVal.num 3) "cm" Option.none (by decide)).2 (by decide)
    exact h.trans (by decide)

/-- C3: round-trip.  Exporting a valid set of document parameters (unique
names) and re-importing the file into a document containing no parameters
of those names appends one parameter per original whose `expression` and
`comment` match the originals exactly. -/
theorem c3_round_trip (design_name : String) (ps qs : List DocParam)
    (hnodup : (ps.map DocParam.name).Nodup)
    (hdisj : ∀ p ∈ ps, ∀ q ∈ qs, p.name ≠ q.name) :
    ∃ news : List DocParam,
      (apply_params_from_json (export_params_to_json design_name ps).1 qs).1 =
        qs ++ news ∧
      news.map DocParam.name = ps.map DocParam.name ∧
      news.map DocParam.expression = ps.map DocParam.expression ∧
      news.map DocParam.comment = ps.map DocParam.comment := by
  refine ⟨ps.map (fun p => ⟨p.name, p.expression, "", p.comment⟩),
    ?_, ?_, ?_, ?_⟩
  · show (ps.map export_record).foldl (applyRecord "") qs = _
    exact foldl_import_of_export "" ps qs hnodup hdisj
  · simp [List.map_map, Function.comp]
  · simp [List.map_map, Function.comp]
  · simp [List.map_map, Function.comp]

/-- Witness for C3 on the specification's example parameters, imported into
a fresh document holding one unrelated parameter. -/
theorem c3_round_trip_witness :
    ∃ news : List DocParam,
      (apply_params_from_json (export_params_to_json "D"
          [⟨"Height", "100 mm", "mm", "tilt"⟩,
           ⟨"Angle", "45 deg", "deg", ""⟩]).1
        [(⟨"Other", "1", "", ""⟩ : DocParam)]).1 =
        [(⟨"Other", "1", "", ""⟩ : DocParam)] ++ news ∧
      news.map DocParam.name = ["Height", "Angle"] ∧
      news.map DocParam.expression = ["100 mm", "45 deg"] ∧
      news.map DocParam.comment = ["tilt", ""] := by
  obtain ⟨news, h1, h2, h3, h4⟩ := c3_round_trip "D"
    [⟨"Height", "100 mm", "mm", "tilt"⟩, ⟨"Angle", "45 deg", "deg", ""⟩]
    [⟨"Other", "1", "", ""⟩] (by decide) (by decide)
  exact ⟨news, h1, h2.trans (by decide), h3.trans (by decide),
    h4.trans (by decide)⟩

/-- C4: export emits, for each document parameter in enumeration order, a
record with its `name`, its current `expression` verbatim (no value/unit
re-derivation: the `value` and `unit` keys are absent), and its comment
with `""` substituted when there is none (`p.comment or ""`); the
file-level `defaultUnit` is always the empty string. -/
theorem c4_export_shape (design_name : String) (ps : List DocParam) :
    (export_params_to_json design_name ps).1.defaultUnit = "" ∧
    (export_params_to_json design_name ps).1.parameters.length = ps.length ∧
    ∀ (i : Nat) (p : DocParam), ps[i]? = some p →
      (export_params_to_json design_name ps).1.parameters[i]? =
        some (⟨p.name, some (PyVal.pstr p.expression), PyVal.none,
          Option.none, some (strOr p.comment "")⟩ : ParamRecord) := by
  refine ⟨rfl, by simp [export_params_to_json], ?_⟩
  intro i p hi
  show (ps.map export_record)[i]? = _
  rw [List.getElem?_map, hi]
  rfl

/-- Witness for C4 on a one-parameter document. -/
theorem c4_export_shape_witness :
    (export_params_to_json "D"
        [(⟨"Angle", "45 deg", "deg", "tilt"⟩ : DocParam)]).1.parameters[0]? =
      some ⟨"Angle", some (PyVal.pstr "45 deg"), PyVal.none, Option.none,
        some "tilt"⟩ := by
  have h := (c4_export_shape "D" [⟨"Angle", "45 deg", "deg", "tilt"⟩]).2.2 0
    ⟨"Angle", "45 deg", "deg", "tilt"⟩ rfl
  exact h.trans (by decide)

/-- C5: when export fails (document absent, or destination not writable so
`open(path, 'w')` raises before anything is written), the content at
`jsonPath` is untouched; and whatever happens, the content at `jsonPath`
afterwards is either its prior content or the serialization of the complete
fully-built output structure — never a prefix of it. -/
theorem c5_atomic_export (doc : Option (List DocParam)) (design_name : String)
    (writable : Bool) (old path : String) :
    (doc = Option.none →
      export_params_io doc design_name writable old path =
        (old, [UiMsg.noActiveDesign])) ∧
    (writable = false →
      (export_params_io doc design_name writable old path).1 = old) ∧
    ((export_params_io doc design_name writable old path).1 = old ∨
      ∃ ps, doc = some ps ∧
        (export_params_io doc design_name writable old path).1 =
          serializeFile (export_params_to_json design_name ps).1) := by
  cases doc with
  | none => exact ⟨fun _ => rfl, fun _ => rfl, Or.inl rfl⟩
  | some ps =>
    cases writable with
    | false => exact ⟨fun h => by simp at h, fun _ => rfl, Or.inl rfl⟩
    | true =>
      exact ⟨fun h => by simp at h, fun h => by simp at h,
        Or.inr ⟨ps, rfl, rfl⟩⟩

/-- Witness for C5: an absent document and an unwritable path both leave the
prior file content in place. -/
theorem c5_atomic_export_witness :
    export_params_io Option.none "D" false "prior" "out.json" =
      ("prior", [UiMsg.noActiveDesign]) ∧
    (export_params_io (some [(⟨"W", "1", "", ""⟩ : DocParam)]) "D" false
      "prior" "out.json").1 = "prior" :=
  ⟨(c5_atomic_export Option.none "D" false "prior" "out.json").1 rfl,
    (c5_atomic_export (some [⟨"W", "1", "", ""⟩]) "D" false "prior"
      "out.json").2.1 rfl⟩

/-- C6: import is idempotent.  For a well-formed parameter file (record
names are unique, `name` being the schema's unique key), importing it twice
into the same document yields exactly the same final parameter list and the
same reported count as importing it once. -/
theorem c6_import_idempotent (f : ParamFile) (ps : List DocParam)
    (hnodup : (f.parameters.map ParamRecord.name).Nodup) :
    (apply_params_from_json f (apply_params_from_json f ps).1).1 =
      (apply_params_from_json f ps).1 ∧
    (apply_params_from_json f (apply_params_from_json f ps).1).2 =
      (apply_params_from_json f ps).2 := by
  refine ⟨?_, rfl⟩
  show f.parameters.foldl (applyRecord f.defaultUnit)
    (f.parameters.foldl (applyRecord f.defaultUnit) ps) = _
  exact foldl_applyRecord_idem f.defaultUnit f.parameters hnodup ps

/-- Witness for C6: a file with one value-form record (with comment) and one
expression-form record matching a pre-existing parameter. -/
theorem c6_import_idempotent_witness :
    (apply_params_from_json
        ⟨"d", "mm", [⟨"A", Option.none, PyVal.num 1, Option.none, some "c"⟩,
          ⟨"B", some (PyVal.pstr "2 in"), PyVal.none, some "zz", Option.none⟩]⟩
        (apply_params_from_json
          ⟨"d", "mm", [⟨"A", Option.none, PyVal.num 1, Option.none, some "c"⟩,
            ⟨"B", some (PyVal.pstr "2 in"), PyVal.none, some "zz",
              Option.none⟩]⟩
          [(⟨"B", "x", "u", "k"⟩ : DocParam)]).1).1 =
      (apply_params_from_json
        ⟨"d", "mm", [⟨"A", Option.none, PyVal.num 1, Option.none, some "c"⟩,
          ⟨"B", some (PyVal.pstr "2 in"), PyVal.none, some "zz", Option.none⟩]⟩
        [(⟨"B", "x", "u", "k"⟩ : DocParam)]).1 :=
  (c6_import_idempotent _ [⟨"B", "x", "u", "k"⟩] (by decide)).1

/-- C7: import never deletes.  The collection never shrinks, every
pre-existing parameter keeps its slot and name, and a parameter whose name
appears in no imported record is completely unchanged — the only changes
are the in-place updates and appends of the upsert path. -/
theorem c7_no_delete (f : ParamFile) (ps : List DocParam) :
    ps.length ≤ (apply_params_from_json f ps).1.length ∧
    ∀ (i : Nat) (p : DocParam), ps[i]? = some p →
      ∃ q, (apply_params_from_json f ps).1[i]? = some q ∧ q.name = p.name ∧
        ((∀ r ∈ f.parameters, r.name ≠ p.name) → q = p) := by
  constructor
  · exact foldl_applyRecord_length_le f.defaultUnit f.parameters ps
  · intro i p hi
    exact foldl_applyRecord_getElem f.defaultUnit f.parameters ps i p hi

/-- Witness for C7: a parameter not named by the imported file survives
unchanged in its slot. -/
theorem c7_no_delete_witness :
    (1 : Nat) ≤ (apply_params_from_json
        ⟨"d", "", [⟨"A", some (PyVal.pstr "5"), PyVal.none, Option.none,
          Option.none⟩]⟩ [(⟨"B", "e", "u", "c"⟩ : DocParam)]).1.length ∧
    ∃ q, (apply_params_from_json
        ⟨"d", "", [⟨"A", some (PyVal.pstr "5"), PyVal.none, Option.none,
          Option.none⟩]⟩ [(⟨"B", "e", "u", "c"⟩ : DocParam)]).1[0]? =
        some q ∧ q.name = "B" ∧ q = ⟨"B", "e", "u", "c"⟩ := by
  have h := c7_no_delete ⟨"d", "", [⟨"A", some (PyVal.pstr "5"), PyVal.none,
    Option.none, Option.none⟩]⟩ [⟨"B", "e", "u", "c"⟩]
  obtain ⟨q, hq, hname, huntouched⟩ := h.2 0 ⟨"B", "e", "u", "c"⟩ rfl
  exact ⟨h.1, q, hq, hname, huntouched (by decide)⟩

/-- C8: a dismissed path-selection dialog aborts silently: both handlers
return before any work, so the document, the file content and the set of
surfaced messages are all untouched. -/
theorem c8_cancel_silent (doc : Option (List DocParam))
    (fileAt : String → Option ParamFile) (design_name : String)
    (writable : Bool) (old : String) :
    import_notify DialogResult.cancelled doc fileAt = (doc, []) ∧
    export_notify DialogResult.cancelled doc design_name writable old =
      (old, []) :=
  ⟨rfl, rfl⟩

/-- C9: a record with neither `expression` nor `value` is not rejected or
skipped — the upsert still runs, with a resolved expression rendering the
missing Python value (`"None"`, or `"None <unit>"` under an applicable
unit), and the record still counts toward the reported applied count
(which is always the full record count). -/
theorem c9_missing_value_applied (du : String) (r : ParamRecord)
    (ps : List DocParam) (f : ParamFile)
    (hexpr : r.expression = Option.none) (hval : r.value = PyVal.none) :
    applyRecord du ps r =
      upsert_user_param ps r.name PyVal.none (r.unit.getD du) r.comment ∧
    (∃ q, firstNamed (applyRecord du ps r) r.name = some q ∧
      q.expression = (if r.unit.getD du = "" then "None"
        else "None" ++ " " ++ r.unit.getD du)) ∧
    (apply_params_from_json f ps).2 = f.parameters.length := by
  refine ⟨?_, ?_, rfl⟩
  · rw [applyRecord_eq_upsert]
    simp [recVal, recUnit, hexpr, hval]
  · obtain ⟨q, hq, _, hq2, _⟩ := firstNamed_applyRecord du ps r
    refine ⟨q, hq, ?_⟩
    rw [hq2]
    simp [recExpr, recVal, recUnit, hexpr, hval, resolve_expr,
      make_value_string, PyVal.pyStr]

/-- Witness for C9: the empty record named `X` under file default unit `mm`
upserts `"None mm"` and is counted. -/
theorem c9_missing_value_applied_witness :
    (∃ q, firstNamed (applyRecord "mm" []
        ⟨"X", Option.none, PyVal.none, Option.none, Option.none⟩) "X" =
      some q ∧ q.expression = "None mm") ∧
    (apply_params_from_json ⟨"d", "mm", [⟨"X", Option.none, PyVal.none,
        Option.none, Option.none⟩]⟩ []).2 = 1 := by
  have h := c9_missing_value_applied "mm"
    ⟨"X", Option.none, PyVal.none, Option.none, Option.none⟩ []
    ⟨"d", "mm", [⟨"X", Option.none, PyVal.none, Option.none, Option.none⟩]⟩
    rfl rfl
  obtain ⟨q, hq, hqe⟩ := h.2.1
  exact ⟨⟨q, hq, hqe.trans (by decide)⟩, h.2.2⟩

/-- C10: for an expression-form record the record's `unit` and the file
`defaultUnit` are ignored entirely — the upsert receives the empty unit
string, so the import result is independent of both, and a newly created
parameter from such a record carries the empty string as its unit. -/
theorem c10_expression_ignores_units (du du' : String) (u' : Option String)
    (ps : List DocParam) (r : ParamRecord) (e : PyVal)
    (hexpr : r.expression = some e) :
    applyRecord du ps r = upsert_user_param ps r.name e "" r.comment ∧
    applyRecord du ps r =
      applyRecord du' ps ⟨r.name, r.expression, r.value, u', r.comment⟩ ∧
    ((∀ p ∈ ps, p.name ≠ r.name) →
      applyRecord du ps r =
        ps ++ [⟨r.name, resolve_expr e "", "", pyOrStr r.comment ""⟩]) := by
  have h1 : applyRecord du ps r =
      upsert_user_param ps r.name e "" r.comment := by
    simp [applyRecord, hexpr]
  have h2 : applyRecord du' ps ⟨r.name, r.expression, r.value, u', r.comment⟩ =
      upsert_user_param ps r.name e "" r.comment := by
    simp [applyRecord, hexpr]
  refine ⟨h1, h1.trans h2.symm, ?_⟩
  intro h
  rw [h1]
  show upsert_go r.name (resolve_expr e "") "" r.comment ps = _
  rw [upsert_go_nomatch _ _ _ _ ps h]
  simp [strOr]

/-- Witness for C10: the same expression-form record imported under two
different file default units and with/without a record unit gives the same
result, and the created parameter's unit is `""`. -/
theorem c10_expression_ignores_units_witness :
    applyRecord "in" [(⟨"Z", "1", "", ""⟩ : DocParam)]
        ⟨"W", some (PyVal.pstr "7 mm"), PyVal.num 9, some "cm",
          Option.none⟩ =
      applyRecord "ft" [(⟨"Z", "1", "", ""⟩ : DocParam)]
        ⟨"W", some (PyVal.pstr "7 mm"), PyVal.num 9, Option.none,
          Option.none⟩ ∧
    applyRecord "in" [(⟨"Z", "1", "", ""⟩ : DocParam)]
        ⟨"W", some (PyVal.pstr "7 mm"), PyVal.num 9, some "cm",
          Option.none⟩ =
      [⟨"Z", "1", "", ""⟩, ⟨"W", "7 mm", "", ""⟩] := by
  have h := c10_expression_ignores_units "in" "ft" Option.none
    [⟨"Z", "1", "", ""⟩]
    ⟨"W", some (PyVal.pstr "7 mm"), PyVal.num 9, some "cm", Option.none⟩
    (PyVal.pstr "7 mm") rfl
  exact ⟨h.2.1, (h.2.2 (by decide)).trans (by decide)⟩
